import Mathlib

/-!
Verification development for the arplay repository (src/main.rs, src/window.rs).

The development shallowly embeds the session-orchestration core:

* `YUVWindow`, `H264Window` and their methods embed src/window.rs.  Native
  resources (SDL canvas/texture, the ffmpeg codec context, the decoded
  `AVFrame`) are external capabilities; only the state the orchestrator
  observes is kept: the window's intrinsic size, its last assigned position,
  and whether the underlying SDL window / the `VideoSubsystem` token are
  still present.  A Rust `panic!` / failed `assert!` / `unwrap()` on `None`
  is embedded as the `Option.none` result of the enclosing operation,
  since it aborts the whole process.
* Decoding and window creation are external fallible calls; a `Frame`
  payload is therefore modelled by `FrameData`, carrying the outcome the
  external decoder / window system would produce for those bytes: whether
  the decode succeeds, the decoded picture's intrinsic size, and whether
  SDL window creation would succeed.
* `WindowMap`, `Msg`, `step`, `processAll`, `align_windows`, `read_packet`
  embed src/main.rs.  The `HashMap<i32, (H264Window, Instant)>` is embedded
  as an association list whose list order models the (unspecified) hash-map
  iteration order; `Instant` creation stamps are embedded as `Nat`.
  Machine integers (`i32`) are embedded as `Int`; Rust `/` on `i32`
  truncates toward zero, which is `Int.tdiv`.  No arithmetic in the layout
  code approaches `i32` overflow in the claims considered, so no modular
  reduction is applied.
* Definitions whose doc comment starts with `Modelled from the spec:`
  follow the specification's words for behaviour that lives outside this
  repository (the sender-side packet encoder) or states the specified
  layout algorithm for comparison with the code (`specLayout` et al.).
-/

namespace Arplay

/-! ### window.rs: YUVWindow -/

/-- Embeds `YUVWindow` (src/window.rs).  `width`/`height` are the fields of
the struct; `pos` records the position last assigned through
`set_position` (`none` right after creation, where SDL centers the window
itself; the orchestrator never reads a position it has not assigned). -/
structure YUVWindow where
  width : Int
  height : Int
  pos : Option (Int × Int)
deriving DecidableEq

/-- Embeds `YUVWindow::set_position` (src/window.rs). -/
def YUVWindow.set_position (w : YUVWindow) (x y : Int) : YUVWindow :=
  { w with pos := some (x, y) }

/-! ### window.rs: H264Window -/

/-- Outcome of handing one `Frame` payload to the external capabilities:
`ok` is whether `avcodec_send_packet`/`avcodec_receive_frame` succeed on
these bytes, `w`/`h` are the decoded picture's intrinsic size, and
`createOk` is whether `YUVWindow::new` (SDL window + texture creation)
would succeed for this session. -/
structure FrameData where
  ok : Bool
  w : Int
  h : Int
  createOk : Bool
deriving DecidableEq

/-- Embeds `H264Window` (src/window.rs).  `video` embeds the
`Option<VideoSubsystem>` field (consumed by `take()` at window creation);
`window` embeds the `Option<YUVWindow>` field.  The codec context and the
scratch `YUVFrame` are external resources without observable state. -/
structure H264Window where
  video : Option Unit
  window : Option YUVWindow
deriving DecidableEq

/-- Embeds `H264Window::new` (src/window.rs): the decoder context is
created (assumed to succeed, as its assertions only guard codec
availability at startup), no window exists yet, and the `VideoSubsystem`
is held for the later window creation. -/
def H264Window.new : H264Window :=
  { video := some (), window := none }

/-- Embeds `H264Window::size` (src/window.rs): `(0, 0)` while no window
has been created. -/
def H264Window.size (w : H264Window) : Int × Int :=
  match w.window with
  | some win => (win.width, win.height)
  | none => (0, 0)

/-- Embeds `H264Window::width` (src/window.rs). -/
def H264Window.width (w : H264Window) : Int :=
  w.size.1

/-- Embeds `H264Window::height` (src/window.rs). -/
def H264Window.height (w : H264Window) : Int :=
  w.size.2

/-- Embeds `H264Window::is_shown` (src/window.rs). -/
def H264Window.is_shown (w : H264Window) : Bool :=
  w.window.isSome

/-- Embeds `H264Window::set_position` (src/window.rs): forwarded to the
SDL window only `if let Some(win) = self.window`. -/
def H264Window.set_position (w : H264Window) (x y : Int) : H264Window :=
  match w.window with
  | some win => { w with window := some (win.set_position x y) }
  | none => w

/-- Embeds `H264Window::hide` (src/window.rs):
`self.window.as_mut().unwrap().hide()`.  The `unwrap()` panics — aborting
the process, embedded as `none` — whenever no window was ever created. -/
def H264Window.hide (w : H264Window) : Option H264Window :=
  match w.window with
  | some _ => some w
  | none => none

/-- Embeds `H264Window::draw` (src/window.rs).  In order: `decode` panics
(`assert!(ret >= 0)`) unless the bytes decode; if no window exists yet,
`self.video.take().unwrap()` panics when the subsystem token was already
consumed, otherwise `YUVWindow::new` is attempted with the decoded
picture's size and its `Result` is discarded into the `Option` via
`.ok()`; finally `self.window.as_mut().unwrap()` panics whenever the
window is still absent (i.e. creation just failed). -/
def H264Window.draw (w : H264Window) (d : FrameData) : Option H264Window :=
  if d.ok = false then
    none
  else
    let afterCreate : Option H264Window :=
      if w.window.isNone then
        match w.video with
        | none => none
        | some _ =>
            some { w with
                   video := none,
                   window := if d.createOk then some ⟨d.w, d.h, none⟩ else none }
      else some w
    match afterCreate with
    | none => none
    | some w2 =>
        match w2.window with
        | none => none
        | some _ => some w2

/-! ### main.rs: session table -/

/-- Embeds the value type of `WindowMap = HashMap<i32, (H264Window, Instant)>`
(src/main.rs): the per-session window plus its creation stamp. -/
structure Entry where
  win : H264Window
  created : Nat
deriving DecidableEq

/-- Embeds `WindowMap` (src/main.rs).  The list order models the hash
map's unspecified iteration order; keys are unique in any reachable
table. -/
abbrev WindowMap := List (Int × Entry)

/-- Embeds `HashMap::get` / `get_mut` lookup by file descriptor. -/
def getFd {α : Type} (fd : Int) : List (Int × α) → Option α
  | [] => none
  | p :: rest => if p.1 = fd then some p.2 else getFd fd rest

/-- Embeds `HashMap::insert`: replaces the value in place when the key is
present (as `get_mut` followed by mutation does), otherwise adds the
key (its place in the iteration order is arbitrary; appending is one
admissible choice). -/
def insertFd {α : Type} (fd : Int) (e : α) : List (Int × α) → List (Int × α)
  | [] => [(fd, e)]
  | p :: rest => if p.1 = fd then (fd, e) :: rest else p :: insertFd fd e rest

/-- Embeds `HashMap::remove` (keys are unique, so removing the first
occurrence is removal). -/
def eraseFd {α : Type} (fd : Int) : List (Int × α) → List (Int × α)
  | [] => []
  | p :: rest => if p.1 = fd then rest else p :: eraseFd fd rest

/-! ### main.rs: align_windows -/

/-- Embeds `const PADDING: i32 = 20` (src/main.rs). -/
def PADDING : Int := 20

/-- Embeds the comparator of `items.sort_by(|(_, a), (_, b)| a.cmp(&b))`
(src/main.rs): entries are ordered by creation stamp only. -/
def createdLe (a b : Int × Entry) : Prop :=
  a.2.created ≤ b.2.created

instance : DecidableRel createdLe :=
  fun a b => inferInstanceAs (Decidable (a.2.created ≤ b.2.created))

instance : IsTotal (Int × Entry) createdLe :=
  ⟨fun a b => Nat.le_total a.2.created b.2.created⟩

instance : IsTrans (Int × Entry) createdLe :=
  ⟨fun _ _ _ h1 h2 => Nat.le_trans h1 h2⟩

/-- Strict version of `createdLe`; used only to reason about sorting. -/
def createdLt (a b : Int × Entry) : Prop :=
  a.2.created < b.2.created

instance : IsAntisymm (Int × Entry) createdLt :=
  ⟨fun _ _ h1 h2 => absurd h1 (Nat.lt_asymm h2)⟩

/-- Embeds the width accumulation in `align_windows` (src/main.rs):
`windows.iter().fold(0, |acc, (_, (win, _))| acc + win.width())
 + (size - 1) * PADDING`. -/
def totalWindowWidth (t : WindowMap) : Int :=
  t.foldl (fun acc p => acc + p.2.win.width) 0 + ((t.length : Int) - 1) * PADDING

/-- Embeds `let mut x = (width - w) / 2` in `align_windows` (src/main.rs);
Rust `i32` division truncates toward zero. -/
def startX (width : Int) (t : WindowMap) : Int :=
  Int.tdiv (width - totalWindowWidth t) 2

/-- Embeds the repositioning loop of `align_windows` (src/main.rs): walking
the sorted entries, each is assigned `(x, (height - wh) / 2)` where
`(ww, wh) = win.size()`, and `x` then advances by `ww + PADDING`.  The
result pairs each file descriptor with the position passed to its
`set_position` call. -/
def positionsFrom (x height : Int) : List (Int × Entry) → List (Int × (Int × Int))
  | [] => []
  | (fd, e) :: rest =>
      (fd, (x, Int.tdiv (height - e.win.size.2) 2)) ::
        positionsFrom (x + e.win.size.1 + PADDING) height rest

/-- The full position assignment computed by `align_windows` (src/main.rs):
entries sorted by creation stamp (`sort_by` is stable, so entries with
equal stamps keep iteration order), walked from the starting `x`. -/
def alignAssignments (t : WindowMap) (width height : Int) : List (Int × (Int × Int)) :=
  positionsFrom (startX width t) height (List.insertionSort createdLe t)

/-- Applies to one table entry the `set_position` call `align_windows`
makes for its file descriptor. -/
def applyAssignment (pos : List (Int × (Int × Int))) (p : Int × Entry) : Int × Entry :=
  match getFd p.1 pos with
  | some q => (p.1, { p.2 with win := p.2.win.set_position q.1 q.2 })
  | none => p

/-- Embeds `align_windows` (src/main.rs): every entry of the map — shown
or not — receives the `set_position` call determined by the sorted
walk (a no-op for entries without a window). -/
def align_windows (t : WindowMap) (width height : Int) : WindowMap :=
  t.map (applyAssignment (alignAssignments t width height))

/-- Position currently stored for the session `fd`'s SDL window: `none`
when the session is absent, has no window, or its window was never
repositioned. -/
def windowPos (t : WindowMap) (fd : Int) : Option (Int × Int) :=
  match getFd fd t with
  | some e =>
      match e.win.window with
      | some win => win.pos
      | none => none
  | none => none

/-! ### main.rs: event loop -/

/-- Embeds `enum Msg` (src/main.rs).  `new` carries the creation stamp
(`Instant::now()` at insertion); the `TcpStream` itself stays with the
spawned reader thread.  `data` carries the `FrameData` outcome for the
payload bytes.  `end_` embeds `Msg::End`. -/
inductive Msg where
  | new (fd : Int) (now : Nat)
  | data (fd : Int) (d : FrameData)
  | end_ (fd : Int)
deriving DecidableEq

/-- External calls the coordinator makes while processing one message
(src/main.rs): `win.draw(..)`, `win.hide()`, `align_windows(..)`. -/
inductive Call where
  | draw
  | hide
  | layout
deriving DecidableEq

/-- Embeds one iteration of the `match msg` in `main` (src/main.rs).
`none` means the iteration panicked, aborting the process.  The returned
list records which external calls were made. -/
def step (screenW screenH : Int) (t : WindowMap) : Msg → Option (WindowMap × List Call)
  | Msg.new fd now =>
      some (insertFd fd ⟨H264Window.new, now⟩ t, [])
  | Msg.data fd d =>
      match getFd fd t with
      | none => some (t, [])
      | some e =>
          let isNew : Bool := !e.win.is_shown
          match e.win.draw d with
          | none => none
          | some w2 =>
              let t2 := insertFd fd { e with win := w2 } t
              if isNew then
                some (align_windows t2 screenW screenH, [Call.draw, Call.layout])
              else
                some (t2, [Call.draw])
  | Msg.end_ fd =>
      match getFd fd t with
      | none => some (t, [])
      | some e =>
          let t2 := eraseFd fd t
          match e.win.hide with
          | none => none
          | some _ => some (align_windows t2 screenW screenH, [Call.hide, Call.layout])

/-- Runs the event loop of `main` (src/main.rs) over a list of messages;
`none` as soon as one iteration panics. -/
def processAll (screenW screenH : Int) (t : WindowMap) : List Msg → Option WindowMap
  | [] => some t
  | m :: ms =>
      match step screenW screenH t m with
      | none => none
      | some (t2, _) => processAll screenW screenH t2 ms

/-! ### main.rs: read_packet -/

/-- Embeds `Read::read_exact` on a byte stream: succeeds only when `n`
bytes are available (std `read_exact` keeps reading across short reads
and errors out on end-of-stream before `n` bytes), returning the bytes
read and the remaining stream. -/
def readExact (n : Nat) (s : List Nat) : Option (List Nat × List Nat) :=
  if s.length < n then none else some (s.take n, s.drop n)

/-- Embeds `buf.into_buf().get_u32_le()` on the 4-byte header
(src/main.rs): little-endian, first byte least significant. -/
def get_u32_le (b : List Nat) : Nat :=
  match b with
  | [b0, b1, b2, b3] => b0 + 256 * b1 + 65536 * b2 + 16777216 * b3
  | _ => 0

/-- Embeds `read_packet` (src/main.rs): read exactly 4 header bytes,
interpret as little-endian `u32`, read exactly that many payload bytes.
Returns the payload and the unconsumed stream; `none` embeds the
`io::Result` error path (short read on either segment). -/
def read_packet (s : List Nat) : Option (List Nat × List Nat) :=
  match readExact 4 s with
  | none => none
  | some (hdr, rest) =>
      match readExact (get_u32_le hdr) rest with
      | none => none
      | some (payload, rest2) => some (payload, rest2)

/-- Modelled from the spec: the sender-side wire encoding of one packet
length — "4-byte unsigned length (little-endian)".  The encoder is not
part of this repository. -/
def encodeLen (n : Nat) : List Nat :=
  [n % 256, n / 256 % 256, n / 65536 % 256, n / 16777216 % 256]

/-- Modelled from the spec: one encoded packet, the 4-byte little-endian
length followed by exactly that many payload bytes. -/
def encodePacket (payload : List Nat) : List Nat :=
  encodeLen payload.length ++ payload

/-! ### Specification-side layout algorithm -/

/-- Modelled from the spec: the fixed `padding` constant of the
LayoutEngine (20 in the worked example). -/
def specPadding : Int := 20

/-- Modelled from the spec: `totalWidth = Σ(width_i) + padding * (count - 1)`
over the sessions given to the LayoutEngine. -/
def specTotalWidth (ws : List Int) : Int :=
  ws.sum + specPadding * ((ws.length : Int) - 1)

/-- Modelled from the spec: "For each session in sorted order: place at
`(x, (screenHeight - height_i) / 2)`, then `x += width_i + padding`."
Input: the intrinsic `(width, height)` of each session in sorted order. -/
def specPlace (x screenH : Int) : List (Int × Int) → List (Int × Int)
  | [] => []
  | s :: rest =>
      (x, Int.tdiv (screenH - s.2) 2) :: specPlace (x + s.1 + specPadding) screenH rest

/-- Modelled from the spec: the LayoutEngine as a pure function —
`startX = (screenWidth - totalWidth) / 2` (not clamped) and the sorted
placement walk. -/
def specLayout (screenW screenH : Int) (sizes : List (Int × Int)) : List (Int × Int) :=
  specPlace (Int.tdiv (screenW - specTotalWidth (sizes.map Prod.fst)) 2) screenH sizes

/-! ### Concrete tables used in examples -/

/-- A session entry whose display exists with the given intrinsic size
(the state after a first successful decode and window creation). -/
def activeEntry (w h : Int) (cr : Nat) : Entry :=
  ⟨⟨none, some ⟨w, h, none⟩⟩, cr⟩

/-- A session entry in the `Pending` state: inserted by `Msg::New`, no
frame ever drawn. -/
def pendingEntry (cr : Nat) : Entry :=
  ⟨H264Window.new, cr⟩

/-- The spec's worked LayoutEngine example: three displayed sessions of
widths 100, 200, 150 (heights 100), created in order A, B, C. -/
def exampleTable : WindowMap :=
  [(1, activeEntry 100 100 0), (2, activeEntry 200 100 1), (3, activeEntry 150 100 2)]

/-! ### Helper lemmas -/

lemma foldl_width_eq (t : WindowMap) (a : Int) :
    t.foldl (fun acc p => acc + p.2.win.width) a
      = a + (t.map fun p => p.2.win.width).sum := by
  induction t generalizing a with
  | nil => simp
  | cons p rest ih => simp [List.foldl_cons, ih]; ring

lemma totalWindowWidth_eq (t : WindowMap) :
    totalWindowWidth t
      = (t.map fun p => p.2.win.width).sum + ((t.length : Int) - 1) * PADDING := by
  unfold totalWindowWidth
  rw [foldl_width_eq]
  ring

lemma totalWindowWidth_cons (fd : Int) (e : Entry) (t : WindowMap) :
    totalWindowWidth ((fd, e) :: t) = totalWindowWidth t + e.win.width + PADDING := by
  rw [totalWindowWidth_eq, totalWindowWidth_eq]
  simp
  ring

lemma width_of_window_none {w : H264Window} (h : w.window = none) :
    w.width = 0 := by
  simp [H264Window.width, H264Window.size, h]

lemma getFd_of_mem {α : Type} {l : List (Int × α)} (hnd : (l.map Prod.fst).Nodup)
    {fd : Int} {e : α} (h : (fd, e) ∈ l) : getFd fd l = some e := by
  induction l with
  | nil => cases h
  | cons p rest ih =>
      rcases List.mem_cons.mp h with h1 | h1
      · subst h1
        simp [getFd]
      · have hnd' := hnd
        simp only [List.map_cons, List.nodup_cons] at hnd'
        have hfd : p.1 ≠ fd := by
          intro hcontra
          exact hnd'.1 (hcontra ▸ List.mem_map_of_mem Prod.fst h1)
        simp [getFd, hfd, ih hnd'.2 h1]

lemma mem_of_getFd {α : Type} {l : List (Int × α)} {fd : Int} {e : α}
    (h : getFd fd l = some e) : (fd, e) ∈ l := by
  induction l with
  | nil => simp [getFd] at h
  | cons p rest ih =>
      by_cases hp : p.1 = fd
      · simp [getFd, hp] at h
        obtain ⟨k, v⟩ := p
        simp only at hp h
        subst hp
        subst h
        exact List.mem_cons_self _ _
      · simp [getFd, hp] at h
        exact List.mem_cons_of_mem _ (ih h)

lemma getFd_eq_none_iff {α : Type} {l : List (Int × α)} {fd : Int} :
    getFd fd l = none ↔ fd ∉ l.map Prod.fst := by
  induction l with
  | nil => simp [getFd]
  | cons p rest ih =>
      by_cases hp : p.1 = fd
      · simp [getFd, hp]
      · simp [getFd, hp, ih, Ne.symm hp]

lemma applyAssignment_fst (pos : List (Int × (Int × Int))) (p : Int × Entry) :
    (applyAssignment pos p).1 = p.1 := by
  unfold applyAssignment
  cases getFd p.1 pos <;> rfl

lemma getFd_map_apply (pos : List (Int × (Int × Int))) (t : WindowMap) (fd : Int) :
    getFd fd (t.map (applyAssignment pos))
      = (getFd fd t).map fun e => (applyAssignment pos (fd, e)).2 := by
  induction t with
  | nil => simp [getFd]
  | cons p rest ih =>
      by_cases hp : p.1 = fd
      · obtain ⟨k, e⟩ := p
        simp only at hp
        subst hp
        simp [getFd, applyAssignment_fst]
      · simp [getFd, List.map_cons, applyAssignment_fst, hp, ih]

lemma positionsFrom_fst (x h : Int) (l : List (Int × Entry)) :
    (positionsFrom x h l).map Prod.fst = l.map Prod.fst := by
  induction l generalizing x with
  | nil => rfl
  | cons p rest ih =>
      obtain ⟨fd, e⟩ := p
      simp [positionsFrom, ih]

lemma positionsFrom_snd (x h : Int) (l : List (Int × Entry)) :
    (positionsFrom x h l).map Prod.snd
      = specPlace x h (l.map fun p => p.2.win.size) := by
  induction l generalizing x with
  | nil => rfl
  | cons p rest ih =>
      obtain ⟨fd, e⟩ := p
      simp [positionsFrom, specPlace, specPadding, PADDING, ih]

lemma map_getFd_eq {β : Type} (L : List (Int × β)) (f : Int → Option β)
    (h : ∀ p ∈ L, f p.1 = some p.2) :
    (L.map Prod.fst).map f = L.map fun p => some p.2 := by
  induction L with
  | nil => rfl
  | cons p rest ih =>
      simp only [List.map_cons, List.cons.injEq]
      exact ⟨h p (List.mem_cons_self _ _), ih fun q hq => h q (List.mem_cons_of_mem _ hq)⟩

lemma alignAssignments_fst (t : WindowMap) (w h : Int) :
    (alignAssignments t w h).map Prod.fst
      = (List.insertionSort createdLe t).map Prod.fst := by
  unfold alignAssignments
  exact positionsFrom_fst _ _ _

lemma windowPos_align (t : WindowMap) (w h : Int)
    (hnd : (t.map Prod.fst).Nodup)
    (hdisp : ∀ p ∈ t, p.2.win.window.isSome = true)
    {fd : Int} {q : Int × Int}
    (hq : (fd, q) ∈ alignAssignments t w h) :
    windowPos (align_windows t w h) fd = some q := by
  have hperm : (List.insertionSort createdLe t).Perm t := List.perm_insertionSort _ _
  have hfd_mem : fd ∈ (List.insertionSort createdLe t).map Prod.fst := by
    rw [← alignAssignments_fst t w h]
    exact List.mem_map_of_mem Prod.fst hq
  obtain ⟨p, hp, hpfst⟩ := List.mem_map.mp hfd_mem
  obtain ⟨k, e⟩ := p
  simp only at hpfst
  subst hpfst
  have hmem_t : (k, e) ∈ t := hperm.subset hp
  have hget_t : getFd k t = some e := getFd_of_mem hnd hmem_t
  have hnd_assign : ((alignAssignments t w h).map Prod.fst).Nodup := by
    rw [alignAssignments_fst]
    exact ((hperm.map Prod.fst).nodup_iff).mpr hnd
  have hget_pos : getFd k (alignAssignments t w h) = some q :=
    getFd_of_mem hnd_assign hq
  obtain ⟨win, hwin⟩ := Option.isSome_iff_exists.mp (by simpa using hdisp (k, e) hmem_t)
  unfold align_windows windowPos
  rw [getFd_map_apply, hget_t]
  simp [applyAssignment, hget_pos, H264Window.set_position, hwin, YUVWindow.set_position]

lemma getFd_perm {t1 t2 : WindowMap} (hperm : t1.Perm t2)
    (hnd : (t1.map Prod.fst).Nodup) (fd : Int) :
    getFd fd t1 = getFd fd t2 := by
  have hnd2 : (t2.map Prod.fst).Nodup := ((hperm.map Prod.fst).nodup_iff).mp hnd
  cases h : getFd fd t1 with
  | some e => exact (getFd_of_mem hnd2 (hperm.subset (mem_of_getFd h))).symm
  | none =>
      have hnot : fd ∉ t2.map Prod.fst := by
        intro hmem
        exact (getFd_eq_none_iff.mp h) (((hperm.map Prod.fst).mem_iff).mpr hmem)
      exact (getFd_eq_none_iff.mpr hnot).symm

lemma sorted_createdLt_of_nodup {l : List (Int × Entry)}
    (hs : List.Sorted createdLe l)
    (hn : (l.map fun p => p.2.created).Nodup) :
    List.Sorted createdLt l := by
  have hne : List.Pairwise (fun a b : Int × Entry => a.2.created ≠ b.2.created) l :=
    List.pairwise_map.mp hn
  exact (List.Pairwise.and hs hne).imp fun hab => Nat.lt_of_le_of_ne hab.1 hab.2

lemma insertionSort_eq_of_perm {t1 t2 : WindowMap} (hperm : t1.Perm t2)
    (htimes : (t1.map fun p => p.2.created).Nodup) :
    List.insertionSort createdLe t1 = List.insertionSort createdLe t2 := by
  have hp1 : (List.insertionSort createdLe t1).Perm t1 := List.perm_insertionSort _ _
  have hp2 : (List.insertionSort createdLe t2).Perm t2 := List.perm_insertionSort _ _
  have hperm12 :
      (List.insertionSort createdLe t1).Perm (List.insertionSort createdLe t2) :=
    (hp1.trans hperm).trans hp2.symm
  have ht1 : ((List.insertionSort createdLe t1).map fun p => p.2.created).Nodup :=
    ((hp1.map _).nodup_iff).mpr htimes
  have ht2 : ((List.insertionSort createdLe t2).map fun p => p.2.created).Nodup := by
    refine ((hp2.map _).nodup_iff).mpr ?_
    exact ((hperm.map _).nodup_iff).mp htimes
  exact List.eq_of_perm_of_sorted hperm12
    (sorted_createdLt_of_nodup (List.sorted_insertionSort _ _) ht1)
    (sorted_createdLt_of_nodup (List.sorted_insertionSort _ _) ht2)

/-! ### Claim theorems -/

/-- Claim C2 (status: code_bug — evaluation of the code at the failing
input): with two live sessions, a `Frame` whose bytes fail to decode
makes `H264Window::decode` hit `assert!(ret >= 0)`, aborting the whole
process (`none`), instead of ending only that session. -/
theorem decode_failure_aborts_process :
    step 1000 800 [(1, activeEntry 100 100 0), (2, activeEntry 200 100 1)]
      (Msg.data 1 ⟨false, 0, 0, true⟩) = none := rfl

/-- Claim C3 (status: code_bug — evaluation of the code at the failing
input): processing `SessionEnded` for a session still in the `Pending`
state (no display ever created) panics in `H264Window::hide`, which
unwraps the absent window, instead of skipping the display release. -/
theorem session_ended_pending_panics :
    step 1000 800 [(1, pendingEntry 0), (2, activeEntry 200 100 1)]
      (Msg.end_ 1) = none := rfl

/-- Claim C7 (status: code_bug — evaluation of the code at the failing
input): already for N = 1, the interleaving `NewSession(1); SessionEnded(1)`
panics while processing the `SessionEnded` (the session is still
display-less, and `H264Window::hide` unwraps the absent window), so the
loop never completes with an empty table. -/
theorem new_end_interleaving_panics :
    processAll 1000 800 [] [Msg.new 1 0, Msg.end_ 1] = none := rfl

/-- Claim C9 (status: code_bug — evaluation of the code at the failing
input): when the first frame decodes but `YUVWindow::new` fails, `draw`
continues to `self.window.as_mut().unwrap()` on the still-absent window
and panics, instead of leaving the session `Pending` without crashing. -/
theorem display_creation_failure_panics :
    step 1000 800 [(1, pendingEntry 0)] (Msg.data 1 ⟨true, 640, 480, false⟩) = none := rfl

/-- Claim C8: for an id absent from the session table, a `Frame` event and
a (duplicate) `SessionEnded` event are both no-ops: the table is returned
unchanged and no draw, hide or layout call is made. -/
theorem stale_event_noop (t : WindowMap) (screenW screenH fd : Int) (d : FrameData)
    (h : getFd fd t = none) :
    step screenW screenH t (Msg.data fd d) = some (t, [])
    ∧ step screenW screenH t (Msg.end_ fd) = some (t, []) := by
  refine ⟨?_, ?_⟩ <;> simp [step, h]

theorem stale_event_noop_witness :
    step 1000 800 exampleTable (Msg.data 99 ⟨true, 0, 0, true⟩) = some (exampleTable, [])
    ∧ step 1000 800 exampleTable (Msg.end_ 99) = some (exampleTable, []) :=
  stale_event_noop exampleTable 1000 800 99 ⟨true, 0, 0, true⟩ rfl

/-- Claim C10: a session whose window has not been created reports size
`(0, 0)` (hence `width() = 0` and `height() = 0`), repositioning it is a
no-op, and in the layout computation it contributes `0` to the summed
widths while still counting in the session count of the
`(size - 1) * PADDING` term — adding such a session to a table raises
the computed total width by exactly `PADDING`. -/
theorem undisplayed_window_defaults (w : H264Window) (hw : w.window = none) :
    w.size = (0, 0) ∧ w.width = 0 ∧ w.height = 0
    ∧ (∀ x y : Int, w.set_position x y = w)
    ∧ ∀ (t : WindowMap) (fd : Int) (cr : Nat),
        totalWindowWidth ((fd, ⟨w, cr⟩) :: t) = totalWindowWidth t + PADDING := by
  refine ⟨?_, ?_, ?_, ?_, ?_⟩
  · simp [H264Window.size, hw]
  · simp [H264Window.width, H264Window.size, hw]
  · simp [H264Window.height, H264Window.size, hw]
  · intro x y
    simp [H264Window.set_position, hw]
  · intro t fd cr
    rw [totalWindowWidth_cons]
    simp [width_of_window_none hw]

theorem undisplayed_window_defaults_witness :
    H264Window.new.size = (0, 0) :=
  (undisplayed_window_defaults H264Window.new rfl).1

/-- Claim C4 counterexample: with one `Pending` session (no display) and
one displayed session of size 100×100 on a 1000×800 screen, the code
computes total width 120 (the pending session adds a padding summand)
and places the displayed window at `(460, 350)`, whereas a layout over
the displayed sessions alone has total width 100 and would place it at
`(450, 350)`. -/
theorem layout_pending_shifts_positions_cex :
    totalWindowWidth [(1, pendingEntry 0), (2, activeEntry 100 100 1)] = 120
    ∧ specTotalWidth [100] = 100
    ∧ windowPos (align_windows [(1, pendingEntry 0), (2, activeEntry 100 100 1)] 1000 800) 2
        = some (460, 350)
    ∧ specLayout 1000 800 [(100, 100)] = [(450, 350)]
    ∧ some ((460 : Int), (350 : Int)) ≠ some ((450 : Int), (350 : Int)) := by
  refine ⟨by decide, by decide, by decide, by decide, by decide⟩

/-- Claim C4 as amended: the layout computation runs over every session
in the table, displayed or not; a session without a display contributes
`0` to the summed widths but still counts in the `(size - 1) * PADDING`
summand — so it raises the total width (and shifts the starting x and
every later window) by exactly `PADDING` — and it receives no position. -/
theorem layout_pending_adds_padding (t : WindowMap) (fd : Int) (e : Entry)
    (screenW screenH : Int) (he : e.win.window = none) :
    totalWindowWidth ((fd, e) :: t) = totalWindowWidth t + PADDING
    ∧ windowPos (align_windows ((fd, e) :: t) screenW screenH) fd = none := by
  constructor
  · rw [totalWindowWidth_cons]
    simp [width_of_window_none he]
  · unfold windowPos align_windows
    rw [getFd_map_apply]
    have hget : getFd fd ((fd, e) :: t) = some e := by simp [getFd]
    rw [hget]
    cases hq : getFd fd (alignAssignments ((fd, e) :: t) screenW screenH) with
    | some q => simp [applyAssignment, hq, H264Window.set_position, he]
    | none => simp [applyAssignment, hq, he]

theorem layout_pending_adds_padding_witness :
    totalWindowWidth [(1, pendingEntry 0), (2, activeEntry 100 100 1)]
        = totalWindowWidth [(2, activeEntry 100 100 1)] + PADDING
    ∧ windowPos (align_windows [(1, pendingEntry 0), (2, activeEntry 100 100 1)] 1000 800) 1
        = none :=
  layout_pending_adds_padding [(2, activeEntry 100 100 1)] 1 (pendingEntry 0) 1000 800 rfl

/-- Claim C6 counterexample: two tables holding the same multiset of
sessions — ids 1 and 2, sizes 100×100 and 200×100, both created at
stamp 0 — but in opposite iteration orders.  The sort is by creation
stamp only and stable, so the tie is broken by iteration order, and
session 1 is placed at `(340, 350)` in one run and at `(560, 350)` in
the other: the placement is not independent of table iteration order. -/
theorem layout_tie_order_dependent_cex :
    windowPos (align_windows
        [(1, activeEntry 100 100 0), (2, activeEntry 200 100 0)] 1000 800) 1
      = some (340, 350)
    ∧ windowPos (align_windows
        [(2, activeEntry 200 100 0), (1, activeEntry 100 100 0)] 1000 800) 1
      = some (560, 350)
    ∧ some ((340 : Int), (350 : Int)) ≠ some ((560 : Int), (350 : Int)) := by
  refine ⟨by decide, by decide, by decide⟩

/-- Claim C6 as amended: the layout computation is deterministic whenever
the sessions' creation times are pairwise distinct — any two iteration
orders of the same multiset of sessions yield the same position for
every session.  With equal creation times the tie is broken by table
iteration order (the sort is stable and compares creation time only),
not by id. -/
theorem layout_deterministic_distinct_times (t1 t2 : WindowMap)
    (screenW screenH : Int)
    (hperm : t1.Perm t2)
    (hnd : (t1.map Prod.fst).Nodup)
    (htimes : (t1.map fun p => p.2.created).Nodup)
    (fd : Int) :
    windowPos (align_windows t1 screenW screenH) fd
      = windowPos (align_windows t2 screenW screenH) fd := by
  have hsort := insertionSort_eq_of_perm hperm htimes
  have htot : totalWindowWidth t1 = totalWindowWidth t2 := by
    rw [totalWindowWidth_eq, totalWindowWidth_eq,
      (hperm.map (fun p => p.2.win.width)).sum_eq, hperm.length_eq]
  have hassign : alignAssignments t1 screenW screenH
      = alignAssignments t2 screenW screenH := by
    unfold alignAssignments startX
    rw [hsort, htot]
  have hget : getFd fd t1 = getFd fd t2 := getFd_perm hperm hnd fd
  unfold windowPos align_windows
  rw [getFd_map_apply, getFd_map_apply, hassign, hget]

theorem layout_deterministic_distinct_times_witness :
    windowPos (align_windows
        [(1, activeEntry 100 100 0), (2, activeEntry 200 100 1)] 1000 800) 1
      = windowPos (align_windows
        [(2, activeEntry 200 100 1), (1, activeEntry 100 100 0)] 1000 800) 1 :=
  layout_deterministic_distinct_times
    [(1, activeEntry 100 100 0), (2, activeEntry 200 100 1)]
    [(2, activeEntry 200 100 1), (1, activeEntry 100 100 0)]
    1000 800 (by decide) (by decide) (by decide) 1

/-- Claim C1: on a table of displayed sessions with distinct ids, the code
computes the spec's total width `Σ width_i + padding * (count - 1)`, and
walking the sessions sorted by creation time it assigns exactly the
spec's positions: `startX = (screenW - totalWidth) / 2` (truncating,
possibly negative, not clamped), each session placed at
`(x, (screenH - height_i) / 2)` with `x` advancing by
`width_i + padding`.  In the worked example — screen 1000×800, widths
[100, 200, 150], heights 100, created in order A, B, C — the total width
is 490, the starting x is 255, and A = (255, 350), B = (375, 350),
C = (595, 350). -/
theorem layout_matches_spec_algorithm (t : WindowMap) (screenW screenH : Int)
    (hnd : (t.map Prod.fst).Nodup)
    (_hne : t ≠ [])
    (hdisp : ∀ p ∈ t, p.2.win.window.isSome = true) :
    totalWindowWidth t = specTotalWidth (t.map fun p => p.2.win.width)
    ∧ ((List.insertionSort createdLe t).map Prod.fst).map
          (windowPos (align_windows t screenW screenH))
        = (specLayout screenW screenH
            ((List.insertionSort createdLe t).map fun p => p.2.win.size)).map some
    ∧ totalWindowWidth exampleTable = 490
    ∧ startX 1000 exampleTable = 255
    ∧ windowPos (align_windows exampleTable 1000 800) 1 = some (255, 350)
    ∧ windowPos (align_windows exampleTable 1000 800) 2 = some (375, 350)
    ∧ windowPos (align_windows exampleTable 1000 800) 3 = some (595, 350) := by
  have hperm : (List.insertionSort createdLe t).Perm t := List.perm_insertionSort _ _
  refine ⟨?_, ?_, by decide, by decide, by decide, by decide, by decide⟩
  · rw [totalWindowWidth_eq]
    unfold specTotalWidth specPadding PADDING
    rw [List.length_map]
    ring
  · have hx : Int.tdiv (screenW - specTotalWidth
        (((List.insertionSort createdLe t).map fun p => p.2.win.size).map Prod.fst)) 2
        = startX screenW t := by
      unfold startX
      congr 2
      have hwidths : ((List.insertionSort createdLe t).map fun p => p.2.win.size).map Prod.fst
          = (List.insertionSort createdLe t).map fun p => p.2.win.width := by
        rw [List.map_map]
        rfl
      rw [totalWindowWidth_eq, hwidths]
      unfold specTotalWidth specPadding PADDING
      rw [(hperm.map (fun p => p.2.win.width)).sum_eq, List.length_map, hperm.length_eq]
      ring
    have hmain : ∀ p ∈ alignAssignments t screenW screenH,
        windowPos (align_windows t screenW screenH) p.1 = some p.2 := by
      intro p hp
      obtain ⟨fd, q⟩ := p
      exact windowPos_align t screenW screenH hnd hdisp hp
    calc ((List.insertionSort createdLe t).map Prod.fst).map
            (windowPos (align_windows t screenW screenH))
        = ((alignAssignments t screenW screenH).map Prod.fst).map
            (windowPos (align_windows t screenW screenH)) := by
          rw [alignAssignments_fst]
      _ = (alignAssignments t screenW screenH).map (fun p => some p.2) :=
          map_getFd_eq _ _ hmain
      _ = ((alignAssignments t screenW screenH).map Prod.snd).map some := by
          rw [List.map_map]
          rfl
      _ = (specPlace (startX screenW t) screenH
            ((List.insertionSort createdLe t).map fun p => p.2.win.size)).map some := by
          unfold alignAssignments
          rw [positionsFrom_snd]
      _ = (specLayout screenW screenH
            ((List.insertionSort createdLe t).map fun p => p.2.win.size)).map some := by
          unfold specLayout
          rw [hx]

theorem layout_matches_spec_algorithm_witness :
    windowPos (align_windows exampleTable 1000 800) 1 = some (255, 350) :=
  (layout_matches_spec_algorithm exampleTable 1000 800 (by decide) (by decide)
    (by decide)).2.2.2.2.1

lemma get_u32_le_encodeLen {n : Nat} (h : n < 4294967296) :
    get_u32_le (encodeLen n) = n := by
  simp only [get_u32_le, encodeLen]
  omega

lemma readExact_encodeLen (n : Nat) (p : List Nat) :
    readExact 4 (encodeLen n ++ p) = some (encodeLen n, p) := by
  have h4 : ¬ (encodeLen n ++ p).length < 4 := by
    simp only [encodeLen, List.length_append, List.length_cons, List.length_nil]
    omega
  unfold readExact
  rw [if_neg h4]
  rfl

/-- Claim C5: for every payload whose length is representable in `u32`,
encoding it as the 4-byte little-endian length followed by the payload
bytes and running `read_packet` on the result succeeds and returns
exactly the payload (consuming the whole stream); on every proper prefix
of the encoded packet — a short read on either the length or the payload
segment — `read_packet` reports incompleteness (`none`) instead of a
packet. -/
theorem read_packet_roundtrip (payload : List Nat)
    (hL : payload.length < 4294967296) :
    read_packet (encodePacket payload) = some (payload, [])
    ∧ ∀ k, k < (encodePacket payload).length →
        read_packet ((encodePacket payload).take k) = none := by
  have hdec : get_u32_le (encodeLen payload.length) = payload.length :=
    get_u32_le_encodeLen hL
  constructor
  · simp only [encodePacket, read_packet, readExact_encodeLen, hdec]
    unfold readExact
    rw [if_neg (lt_irrefl _), List.take_length, List.drop_length]
  · intro k hk
    have hk' : k < 4 + payload.length := by
      simp only [encodePacket, encodeLen, List.length_append, List.length_cons,
        List.length_nil] at hk
      omega
    by_cases h4 : k < 4
    · have hlenk : ((encodePacket payload).take k).length < 4 := by
        rw [List.length_take]
        simp only [encodePacket, encodeLen, List.length_append, List.length_cons,
          List.length_nil]
        omega
      have hshort : readExact 4 ((encodePacket payload).take k) = none := by
        unfold readExact
        rw [if_pos hlenk]
      simp [read_packet, hshort]
    · push_neg at h4
      have htake : (encodePacket payload).take k
          = encodeLen payload.length ++ payload.take (k - 4) := by
        unfold encodePacket
        rw [List.take_append_eq_append_take]
        congr 1
        exact List.take_of_length_le (by
          simp only [encodeLen, List.length_cons, List.length_nil]
          omega)
      have hlen : (payload.take (k - 4)).length = k - 4 := by
        rw [List.length_take]
        simp only [encodeLen, List.length_cons, List.length_nil] at htake
        omega
      have hfail : readExact payload.length (payload.take (k - 4)) = none := by
        unfold readExact
        rw [if_pos (by rw [hlen]; omega)]
      rw [htake]
      simp [read_packet, readExact_encodeLen, hdec, hfail]

theorem read_packet_roundtrip_witness :
    read_packet (encodePacket [7]) = some ([7], []) :=
  (read_packet_roundtrip [7] (by decide)).1

end Arplay
